import Mathlib

/-!
Verification development for the vv-speaker box-logic pipeline
(`vv-speaker-box-logic/scripts/vv_box.py`).

Text is embedded as `List Char`.  Stateful parts (speaker-id cache, the
cached player command) are embedded as explicit state passing; external
collaborators (the VOICEVOX speaker directory, the LLM subprocess, the
audio player, `shutil.which`) are embedded as oracle functions supplied
to the model.  Exceptions are embedded as `Except`/`Option` values.
-/

namespace VVBox

/-- Whitespace as matched by Python's `re` class `\s` on `str` (and by
`str.strip`): ASCII whitespace plus the Unicode whitespace code points. -/
def pySpace (c : Char) : Bool :=
  c = ' ' ∨ c = '\t' ∨ c = '\n' ∨ c = '\r' ∨ c = '\x0b' ∨ c = '\x0c' ∨
  c = '\x1c' ∨ c = '\x1d' ∨ c = '\x1e' ∨ c = '\x1f' ∨ c = '\x85' ∨ c = '\xa0' ∨
  c = ' ' ∨ (0x2000 ≤ c.toNat ∧ c.toNat ≤ 0x200a) ∨
  c = ' ' ∨ c = ' ' ∨ c = ' ' ∨ c = ' ' ∨ c = '　'

/-- List-marker characters stripped by `normalize_text`/`normalize_direct_text`:
the character class `[\-\*]` of `vv_box.py` line 164/188. -/
def isMarker (c : Char) : Bool :=
  c = '-' ∨ c = '*'

/-- `text.replace("\r", " ").replace("\n", " ")` (vv_box.py lines 162/186). -/
def replaceCRLF (l : List Char) : List Char :=
  l.map (fun c => if c = '\r' ∨ c = '\n' then ' ' else c)

/-- `re.sub(r"\s+", " ", text)` (vv_box.py lines 163/187): every maximal run
of whitespace characters is replaced by a single space. -/
def collapseWS : List Char → List Char
  | [] => []
  | [c] => if pySpace c then [' '] else [c]
  | c :: d :: rest =>
    if pySpace c ∧ pySpace d then collapseWS (d :: rest)
    else if pySpace c then ' ' :: collapseWS (d :: rest)
    else c :: collapseWS (d :: rest)

/-- Python `str.strip()` from the left. -/
def lstrip (l : List Char) : List Char :=
  l.dropWhile pySpace

/-- Python `str.strip()` from the right. -/
def rstrip (l : List Char) : List Char :=
  (l.reverse.dropWhile pySpace).reverse

/-- Python `str.strip()`. -/
def strip (l : List Char) : List Char :=
  rstrip (lstrip l)

/-- Does the list start with a whitespace character? -/
def headSpace : List Char → Bool
  | [] => false
  | c :: _ => pySpace c

/-- Fueled worker for `markerSub`.  Implements the left-to-right
non-overlapping scan of `re.sub(r"(?:^|\s)[\-\*]\s+", " ", text)`:
a match is a marker at the very start of the string, or a whitespace
character followed by a marker, in both cases followed by a maximal
(greedy) non-empty whitespace run; each match is replaced by one space
and scanning resumes after the match.  One unit of fuel is spent per
consumed character, so fuel `l.length` always suffices. -/
def markerSubF : Nat → Bool → List Char → List Char
  | 0, _, l => l
  | _ + 1, _, [] => []
  | fuel + 1, atStart, c :: rest =>
    if atStart ∧ isMarker c ∧ headSpace rest then
      ' ' :: markerSubF fuel false (rest.dropWhile pySpace)
    else if pySpace c then
      match rest with
      | m :: rest2 =>
        if isMarker m ∧ headSpace rest2 then
          ' ' :: markerSubF fuel false (rest2.dropWhile pySpace)
        else c :: markerSubF fuel false (m :: rest2)
      | [] => [c]
    else c :: markerSubF fuel false rest

/-- `re.sub(r"(?:^|\s)[\-\*]\s+", " ", text)` (vv_box.py lines 164/188). -/
def markerSub (l : List Char) : List Char :=
  markerSubF l.length true l

/-- Shared cleanup pipeline of `normalize_text` (lines 162-164) and
`normalize_direct_text` (lines 186-188): CR/LF replacement, whitespace
collapse, strip, list-marker removal, strip. -/
def cleanup_text (l : List Char) : List Char :=
  strip (markerSub (strip (collapseWS (replaceCRLF l))))

/-- `text.endswith("?") or text.endswith("？")` (vv_box.py line 167). -/
def endsQuestion (l : List Char) : Bool :=
  l.getLast? = some '?' ∨ l.getLast? = some '？'

/-- `re.search(r"[。！？]$", text)` (vv_box.py line 169). -/
def endsSentencePunct (l : List Char) : Bool :=
  match l.getLast? with
  | some c => c = '。' ∨ c = '！' ∨ c = '？'
  | none => false

/-- `re.search(r"[。！？!?]$", text)` (vv_box.py line 191). -/
def endsSentencePunct5 (l : List Char) : Bool :=
  match l.getLast? with
  | some c => c = '。' ∨ c = '！' ∨ c = '？' ∨ c = '!' ∨ c = '?'
  | none => false

/-- Append `"。"` when the terminal punctuation test fails
(vv_box.py lines 169-170). -/
def withTerminal (l : List Char) : List Char :=
  if endsSentencePunct l then l else l ++ ['。']

/-- Python `str.rfind` of the single character `c`: the largest index at
which `c` occurs, and `-1` when it does not occur. -/
def rfindChar (l : List Char) (c : Char) : Int :=
  match l.reverse.findIdx? (fun d => d = c) with
  | some j => (l.length : Int) - 1 - (j : Int)
  | none => -1

/-- `idx = max(head.rfind("。"), head.rfind("！"), head.rfind("？"))`
(vv_box.py line 174); `-1` when none of the three occurs. -/
def truncIdx (head : List Char) : Int :=
  max (max (rfindChar head '。') (rfindChar head '！')) (rfindChar head '？')

/-- Length enforcement of `normalize_text` (vv_box.py lines 172-178):
when the text exceeds `max_chars`, cut at the last sentence-ending
punctuation inside the first `max_chars + 1` characters provided that cut
point is at or after index `min_chars - 1`, else hard-truncate to
`max_chars`, right-strip and append `"。"`. -/
def truncate_text (text : List Char) (min_chars max_chars : Nat) : List Char :=
  if text.length > max_chars then
    if truncIdx (text.take (max_chars + 1)) ≥ (min_chars : Int) - 1 then
      (text.take (max_chars + 1)).take (truncIdx (text.take (max_chars + 1)) + 1).toNat
    else
      rstrip (text.take max_chars) ++ ['。']
  else text

/-- `normalize_text` (vv_box.py lines 161-182). -/
def normalize_text (text : List Char) (min_chars max_chars : Nat) : Option (List Char) :=
  if cleanup_text text = [] then none
  else if endsQuestion (cleanup_text text) then none
  else if (truncate_text (withTerminal (cleanup_text text)) min_chars max_chars).length < min_chars then
    none
  else some (truncate_text (withTerminal (cleanup_text text)) min_chars max_chars)

/-- `normalize_direct_text` (vv_box.py lines 185-193): cleanup, empty to
none, and a terminal punctuation mark (from `[。！？!?]`) appended when
missing; no length enforcement. -/
def normalize_direct_text (text : List Char) : Option (List Char) :=
  if cleanup_text text = [] then none
  else if endsSentencePunct5 (cleanup_text text) then some (cleanup_text text)
  else some (cleanup_text text ++ ['。'])

/-- `FALLBACK_REPLY` (vv_box.py lines 25-28). -/
def FALLBACK_REPLY : List Char :=
  ("今は情報が少ないから、私の方で要点を先にまとめるわ。" ++
   "まず優先順位を一つに絞って、短い手順から試すのが確実よ。").data

/-- Outcome of one `subprocess.run` of the LLM command inside `run_llm`
(vv_box.py lines 199-206): the call either raises (for example
`TimeoutExpired`) or completes with a return code and captured stdout. -/
inductive LLMAttempt where
  | raises
  | completes (returncode : Int) (stdout : List Char)
deriving DecidableEq

/-- `run_llm` (vv_box.py lines 196-212), given the outcome of its
subprocess call: raises (`none`) when the subprocess raised, when the
return code is non-zero, or when the stripped stdout is empty; otherwise
returns the stripped stdout.  The prompt built from `SYSTEM_PROMPT` and
the user text only feeds the oracle subprocess, so it is not modelled. -/
def run_llm : LLMAttempt → Option (List Char)
  | .raises => none
  | .completes rc out =>
    if rc ≠ 0 then none
    else if strip out = [] then none
    else some (strip out)

/-- Python truthiness of an `Optional[str]`: `None` and `""` are falsy. -/
def truthy : Option (List Char) → Bool
  | some s => s ≠ []
  | none => false

/-- Python `x or y` on an `Optional[str]` left operand. -/
def pyOr (o : Option (List Char)) (d : List Char) : List Char :=
  match o with
  | some s => if s = [] then d else s
  | none => d

/-- Values of the `reply_source` Result field: `"direct"`, `"llm"`,
`"fallback"`. -/
inductive ReplySource where
  | direct
  | llm
  | fallback
deriving DecidableEq

/-- Raw candidate of the k-th LLM attempt inside `BoxLogic._make_reply`
(vv_box.py lines 303-307): the `run_llm` output, or `FALLBACK_REPLY`
substituted when `run_llm` raised. -/
def attemptRaw (llm : Nat → LLMAttempt) (k : Nat) : List Char :=
  (run_llm (llm k)).getD FALLBACK_REPLY

/-- `BoxLogic._make_reply` (vv_box.py lines 294-313).  Returns the reply
text, the number of LLM invocations issued, and the reply source.  The
`llm_ms` accumulator is wall-clock time and is not modelled; the call
counter stands in its place.  The `for _ in range(2)` loop is unrolled. -/
def make_reply (text : List Char) (mode : List Char) (min_chars max_chars : Nat)
    (llm : Nat → LLMAttempt) : List Char × Nat × ReplySource :=
  if mode = "direct".data then
    (pyOr (normalize_direct_text text) FALLBACK_REPLY, 0, .direct)
  else
    let n0 := normalize_text (attemptRaw llm 0) min_chars max_chars
    if truthy n0 then (n0.getD [], 1, .llm)
    else
      let n1 := normalize_text (attemptRaw llm 1) min_chars max_chars
      if truthy n1 then (n1.getD [], 2, .llm)
      else (pyOr (normalize_text FALLBACK_REPLY min_chars max_chars) FALLBACK_REPLY, 2, .fallback)

/-- Splitter of `split_sentences` (vv_box.py line 219):
`re.split(r"(?<=[。！？!?])", normalized)` cuts immediately after every
sentence-ending punctuation character. -/
def splitAfterPunct : List Char → List (List Char)
  | [] => [[]]
  | c :: rest =>
    if c = '。' ∨ c = '！' ∨ c = '？' ∨ c = '!' ∨ c = '?' then
      [c] :: splitAfterPunct rest
    else
      match splitAfterPunct rest with
      | [] => [[c]]
      | s :: ss => (c :: s) :: ss

/-- `split_sentences` (vv_box.py lines 215-220). -/
def split_sentences (text : List Char) : List (List Char) :=
  let normalized := strip (collapseWS (text.map (fun c => if c = '\n' then ' ' else c)))
  if normalized = [] then []
  else
    let parts := ((splitAfterPunct normalized).map strip).filter (fun p => p ≠ [])
    if parts = [] then [normalized] else parts

/-- `detect_player_command` (vv_box.py lines 223-232), with
`shutil.which` supplied as the oracle `which`.  A configured non-blank
command is tokenized; otherwise the candidates `pw-play`, `paplay`,
`aplay -q` are probed in that order, and the probe raises when none is
installed.  `shlex.split` is modelled as whitespace tokenization, which
coincides with it on command strings without quoting or escapes (no
claim involves a quoted command). -/
def shlex_split (l : List Char) : List (List Char) :=
  (l.splitOnP pySpace).filter (fun w => w ≠ [])

def detect_player_command (user_command : List Char) (which : List Char → Bool) :
    Except (List Char) (List (List Char)) :=
  if strip user_command ≠ [] then .ok (shlex_split user_command)
  else if which "pw-play".data then .ok ["pw-play".data]
  else if which "paplay".data then .ok ["paplay".data]
  else if which "aplay".data then .ok ["aplay".data, "-q".data]
  else .error "No audio player found. Set PLAYER_COMMAND or install pw-play/paplay/aplay.".data

/-- Speaker argument of `BoxLogic.process`/`resolve_speaker_id`: the JSON
payload field is absent/None, an integer, or a string. -/
inductive SpeakerArg where
  | noneArg
  | intArg (n : Int)
  | strArg (s : List Char)
deriving DecidableEq

/-- Python `str.isdigit` restricted to ASCII digits (no claim involves
non-ASCII digit strings): non-empty and all characters are digits. -/
def isdigitStr (s : List Char) : Bool :=
  s ≠ [] ∧ s.all (fun c => '0' ≤ c ∧ c ≤ '9')

/-- Python `int(...)` on a string of ASCII digits. -/
def digitsToInt (s : List Char) : Int :=
  (s.foldl (fun a c => a * 10 + (c.toNat - '0'.toNat)) 0 : Nat)

/-- Speaker-id cache of `BoxLogic` (`_speaker_id_cache`): a string-keyed
map, embedded as an association list where insertion prepends (the code
only inserts keys that are absent, so this matches the Python dict). -/
def Cache := List (List Char × Int)

def cacheLookup (cache : Cache) (k : List Char) : Option Int :=
  match cache with
  | [] => none
  | (k', v) :: rest => if k' = k then some v else cacheLookup rest k

/-- `VoicevoxClient.resolve_speaker_id` (vv_box.py lines 135-144), over
the decoded `/speakers` directory: entries are (name, style-id list).
The loop skips non-matching names; on the first matching name it raises
(`break` out to the `RuntimeError`) when the style list is empty, else
returns the first style id. -/
def client_resolve_speaker_id (speakers : List (List Char × List Int)) (speaker_name : List Char) :
    Option Int :=
  match speakers with
  | [] => none
  | (n, styles) :: rest =>
    if n = speaker_name then
      match styles with
      | [] => none
      | s :: _ => some s
    else client_resolve_speaker_id rest speaker_name

/-- Name-processing tail of `BoxLogic.resolve_speaker_id` (vv_box.py
lines 261-269), applied once the argument has been replaced by a string
(either the caller's or the configured default).  Returns the resolution
outcome, the updated cache, and the list of names passed to the
collaborator's directory query. -/
def resolve_speaker_name (cache : Cache) (speakers : List (List Char × List Int))
    (s : List Char) : Except (List Char) Int × Cache × List (List Char) :=
  let t := strip s
  if isdigitStr t then (.ok (digitsToInt t), cache, [])
  else
    match cacheLookup cache t with
    | some v => (.ok v, cache, [])
    | none =>
      match client_resolve_speaker_id speakers t with
      | some v => (.ok v, (t, v) :: cache, [t])
      | none => (.error ("Speaker not found: ".data ++ t), cache, [t])

/-- `BoxLogic.resolve_speaker_id` (vv_box.py lines 256-269).  `None` and
strings that strip to empty are replaced by the configured default
speaker name (`str(int)` is never empty, so integer arguments skip the
replacement); integers are returned directly; digit strings are parsed;
other strings go through the cache and the directory query. -/
def resolve_speaker_id (speaker_name_cfg : List Char) (cache : Cache)
    (speakers : List (List Char × List Int)) (speaker : SpeakerArg) :
    Except (List Char) Int × Cache × List (List Char) :=
  match speaker with
  | .noneArg => resolve_speaker_name cache speakers speaker_name_cfg
  | .intArg n => (.ok n, cache, [])
  | .strArg s =>
    if strip s = [] then resolve_speaker_name cache speakers speaker_name_cfg
    else resolve_speaker_name cache speakers s

/-- A sequence of `BoxLogic.resolve_speaker_id` calls over the process
lifetime, threading the cache; returns the final cache and the
concatenated list of names sent to the collaborator's directory. -/
def runResolves (speaker_name_cfg : List Char) (speakers : List (List Char × List Int)) :
    Cache → List SpeakerArg → Cache × List (List Char)
  | cache, [] => (cache, [])
  | cache, a :: rest =>
    let out := resolve_speaker_id speaker_name_cfg cache speakers a
    let tail := runResolves speaker_name_cfg speakers out.2.1 rest
    (tail.1, out.2.2 ++ tail.2)

/-- Configuration fields of `Config` (vv_box.py lines 58-69) used by
`BoxLogic.process`.  The URL, timeouts and lock path feed collaborators
and the OS and are not needed by the model. -/
structure PCfg where
  speaker_name : List Char
  min_chars : Nat
  max_chars : Nat
  player_command : List Char
  stream_playback : Bool

/-- External collaborators of one `BoxLogic.process` call, as oracles:
the decoded VOICEVOX `/speakers` directory, the per-invocation LLM
subprocess outcomes, `shutil.which`, the outcome of the k-th
`VoicevoxClient.synthesize` call (`.error` = the network call raised),
the outcome of the k-th `play_wav_bytes` call (`some msg` = the player
subprocess raised with message `msg`), and `sched`, the OS scheduler's
choice of how many of the daemon producer's residual synthesize calls
complete after the lock release when a playback failure abandons the
streaming pipeline (see `play_segments`). -/
structure PEnv where
  speakers : List (List Char × List Int)
  llm : Nat → LLMAttempt
  which : List Char → Bool
  synth : Nat → Except (List Char) Nat
  play : Nat → Option (List Char)
  sched : Nat

/-- Mutable per-`BoxLogic` state: the cached player command
(`self.player_cmd`) and the speaker-id cache (`self._speaker_id_cache`). -/
structure PState where
  player_cmd : Option (List (List Char))
  cache : Cache

/-- Events emitted by one `BoxLogic.process` call: the cross-process lock
acquisition and release (`ProcessLock.__enter__`/`__exit__`), a directory
query, an LLM invocation, a synthesis call, a playback call. -/
inductive Ev where
  | acquire
  | dirQ
  | llmQ
  | synthQ
  | playQ
  | release
deriving DecidableEq

/-- The `with ProcessLock(...)` scope (vv_box.py line 324): the lock is
acquired before the body and — by the semantics of Python's `with`
statement — released after it on every exit path, including the path on
which the body raised. -/
def lockWrap (mid : List Ev) : List Ev :=
  Ev.acquire :: (mid ++ [Ev.release])

/-- Result dictionary of `BoxLogic.process` (vv_box.py lines 369-384).
`request_id` and the `latency_ms` block are derived from wall-clock time
and hashing and are not modelled. -/
structure ResultD where
  reply_text : List Char
  played : Bool
  speaker_id : Int
  reply_source : ReplySource
  input_chars : Nat
  output_chars : Nat
  mode : List Char
  error : Option (List Char)
deriving DecidableEq

/-- Rendering of the streaming producer/consumer pipeline (vv_box.py
lines 336-359), as observed by the consumer.  The daemon producer thread
synthesizes the segments in order into a capacity-2 queue; a raise
inside the producer is swallowed by the thread and its `finally` pushes
the sentinel, so the consumer stops early without error (and the
producer thread is finished).  A raise inside `play_wav_bytes` happens
on the consumer (main) thread and propagates out of the loop, skipping
`worker.join(timeout=1)` — the producer thread is then abandoned while
still running, and its residual synthesize calls continue concurrently.
Returns the propagated playback error (if any), the number of the
abandoned producer's residual synthesize calls that complete after the
lock release under the scheduling choice `env.sched`, and the
synthesis/playback events the consumer observed.  The residual is 0
when the pipeline was not abandoned (the sentinel arrives only after
the producer's loop, hence all its synthesize calls, finished, and
`worker.join` is then reached), and is otherwise capped by the
remaining segments and by 3: the abandoned producer fills the
capacity-2 queue, completes at most one more synthesis, and then blocks
forever in `put`.  Residual calls that complete before the release fall
inside the lock scope and are not distinguished by any stated property;
the count models those completing after the release. -/
def play_segments (env : PEnv) : List (List Char) → Nat → Nat → Option (List Char) × Nat × List Ev
  | [], _, _ => (none, 0, [])
  | _seg :: rest, sIdx, pIdx =>
    match env.synth sIdx with
    | .error _ => (none, 0, [Ev.synthQ])
    | .ok _wav =>
      match env.play pIdx with
      | some msg => (some msg, min env.sched (min rest.length 3), [Ev.synthQ, Ev.playQ])
      | none =>
        let out := play_segments env rest (sIdx + 1) (pIdx + 1)
        (out.1, out.2.1, Ev.synthQ :: Ev.playQ :: out.2.2)

/-- Synthesis and playback with an already-selected player command
(vv_box.py lines 335-364): the streaming pipeline over the sentence
segments, or the single synthesize-and-play call when streaming is
disabled (no producer thread, so no residual).  Returns (`played`,
`error`, residual post-release synthesize calls, events). -/
def run_with_player (cfg : PCfg) (env : PEnv) (reply_text : List Char) :
    Bool × Option (List Char) × Nat × List Ev :=
  if cfg.stream_playback then
    let segs0 := split_sentences reply_text
    let segs := if segs0 = [] then [reply_text] else segs0
    let out := play_segments env segs 0 0
    (out.1.isNone, out.1, out.2.1, out.2.2)
  else
    match env.synth 0 with
    | .error e => (false, some e, 0, [Ev.synthQ])
    | .ok _wav =>
      match env.play 0 with
      | some e => (false, some e, 0, [Ev.synthQ, Ev.playQ])
      | none => (true, none, 0, [Ev.synthQ, Ev.playQ])

/-- The guarded playback block of `BoxLogic.process` (vv_box.py lines
330-366): select the player on first use (caching it in `self.player_cmd`),
then synthesize and play; any raise inside the block is caught by the
`except` and recorded as the Result's `error` with `played` left false.
Returns (`played`, `error`, updated player command, residual
post-release synthesize calls, events). -/
def run_playback (cfg : PCfg) (env : PEnv) (player_cmd : Option (List (List Char)))
    (reply_text : List Char) :
    Bool × Option (List Char) × Option (List (List Char)) × Nat × List Ev :=
  match player_cmd with
  | some cmd =>
    let out := run_with_player cfg env reply_text
    (out.1, out.2.1, some cmd, out.2.2.1, out.2.2.2)
  | none =>
    match detect_player_command cfg.player_command env.which with
    | .error e => (false, some e, none, 0, [])
    | .ok cmd =>
      let out := run_with_player cfg env reply_text
      (out.1, out.2.1, some cmd, out.2.2.1, out.2.2.2)

/-- Result constructor of `BoxLogic.process` (vv_box.py lines 369-384). -/
def mkResult (text mode : List Char) (speaker_id : Int)
    (rep : List Char × Nat × ReplySource) (played : Bool) (error : Option (List Char)) :
    ResultD :=
  { reply_text := rep.1
    played := played
    speaker_id := speaker_id
    reply_source := rep.2.2
    input_chars := text.length
    output_chars := rep.1.length
    mode := mode
    error := error }

/-- `BoxLogic.process` (vv_box.py lines 315-386).  The body runs inside
the cross-process lock (`lockWrap`): a raise from speaker resolution
propagates out of the call (`Except.error`) but still releases the lock;
reply generation never raises; playback failures are absorbed into the
Result's `error` field.  On the playback-failure path the `except`
skips `worker.join`, so the abandoned daemon producer's residual
synthesize calls (see `play_segments`) may complete after
`ProcessLock.__exit__` releases the flock: the trace appends those
post-release `synthQ` events after `release`.  Returns the outcome, the
updated `BoxLogic` state, and the event trace. -/
def process (cfg : PCfg) (env : PEnv) (st : PState) (text mode : List Char)
    (dry_run : Bool) (speaker : SpeakerArg) :
    Except (List Char) ResultD × PState × List Ev :=
  let r := resolve_speaker_id cfg.speaker_name st.cache env.speakers speaker
  let dirE := r.2.2.map (fun _ => Ev.dirQ)
  match r.1 with
  | .error e => (.error e, ⟨st.player_cmd, r.2.1⟩, lockWrap dirE)
  | .ok sid =>
    let rep := make_reply text mode cfg.min_chars cfg.max_chars env.llm
    let llmE := List.replicate rep.2.1 Ev.llmQ
    if dry_run then
      (.ok (mkResult text mode sid rep false none), ⟨st.player_cmd, r.2.1⟩,
        lockWrap (dirE ++ llmE))
    else
      let pb := run_playback cfg env st.player_cmd rep.1
      (.ok (mkResult text mode sid rep pb.1 pb.2.1), ⟨pb.2.2.1, r.2.1⟩,
        lockWrap (dirE ++ llmE ++ pb.2.2.2.2) ++ List.replicate pb.2.2.2.1 Ev.synthQ)

/-- One queued request as the worker sees it: the payload fields already
extracted by `APIService._worker` (vv_box.py lines 408-413). -/
structure WTask where
  text : List Char
  mode : List Char
  dry_run : Bool
  speaker : SpeakerArg

/-- `APIService._worker` (vv_box.py lines 403-418) over a queue of
tasks, with `envs k` the collaborator oracle for the k-th task.  For each
task the worker runs `BoxLogic.process`; a raise is caught by the
`except` and recorded as the task's result (`{"error": str(exc)}`,
rendered as `Except.error`); the `finally` marks the task done; the loop
then continues with the next task.  Returns one completion
(done-flag, result) per task, plus the final `BoxLogic` state. -/
def worker_run (cfg : PCfg) (envs : Nat → PEnv) :
    Nat → PState → List WTask → List (Bool × Except (List Char) ResultD) × PState
  | _, st, [] => ([], st)
  | k, st, t :: rest =>
    let out := process cfg (envs k) st t.text t.mode t.dry_run t.speaker
    let tail := worker_run cfg envs (k + 1) out.2.1 rest
    ((true, out.1) :: tail.1, tail.2)

/-- `queue.Queue.put_nowait` on a queue created with
`queue.Queue(maxsize=queue_max)` (vv_box.py lines 399, 422): raises
`queue.Full` exactly when `maxsize > 0` and the queue already holds at
least `maxsize` items; a `maxsize` of zero or less means an unbounded
queue.  The call never blocks: it is a total function. -/
def put_nowait (queue_max : Nat) (q : List α) (x : α) : Except Unit (List α) :=
  if 0 < queue_max ∧ queue_max ≤ q.length then .error ()
  else .ok (q ++ [x])

/-- JSON-ish values of a decoded request payload / result dictionary. -/
inductive JVal where
  | null
  | str (s : List Char)
  | bool (b : Bool)
  | int (n : Int)
deriving DecidableEq

/-- Dictionaries such as `task.result` and the decoded POST payload. -/
def JDict := List (List Char × JVal)

/-- Python `key in dict`. -/
def hasKey (d : JDict) (k : List Char) : Bool :=
  match d with
  | [] => false
  | (k', _) :: rest => if k' = k then true else hasKey rest k

/-- Python `dict.get(key)`: `None` when the key is absent. -/
def dictGet (d : JDict) (k : List Char) : JVal :=
  match d with
  | [] => .null
  | (k', v) :: rest => if k' = k then v else dictGet rest k

/-- Python `dict[key]` (used as `payload["text"]` after the `in` check). -/
def pyStr (v : JVal) : List Char :=
  match v with
  | .null => "None".data
  | .str s => s
  | .bool b => if b then "True".data else "False".data
  | .int n => (toString n).data

/-- The `text` validation of `Handler.do_POST` (vv_box.py line 452):
`"text" not in payload or not str(payload["text"]).strip()`. -/
def textValid (payload : JDict) : Bool :=
  hasKey payload "text".data ∧ strip (pyStr (dictGet payload "text".data)) ≠ []

/-- Status-code selection of `Handler.do_POST` for the `/speak` path
(vv_box.py lines 448-464), for a request whose JSON body decoded to
`payload`, with `qlen` items pending in a queue of capacity `queue_max`,
and whose admitted task completed with result dictionary `res`:
400 when `text` is missing or blank, 429 when `put_nowait` raises
`queue.Full`, 500 when the completed result has an `"error"` key and its
`"reply_text"` is `None` (absent or null), else 200. -/
def do_POST_speak (payload : JDict) (qlen queue_max : Nat) (res : JDict) : Nat × JDict :=
  if ¬ textValid payload then (400, [("error".data, .str "text is required".data)])
  else if 0 < queue_max ∧ queue_max ≤ qlen then (429, [("error".data, .str "queue full".data)])
  else if hasKey res "error".data ∧ dictGet res "reply_text".data = .null then (500, res)
  else (200, res)

/-- A work event: anything a process does strictly inside its lock
scope. -/
def workEv (e : Ev) : Prop :=
  e ≠ Ev.acquire ∧ e ≠ Ev.release

/-- A trace is lock-bracketed when it acquires the lock first, releases
it last, and touches the lock nowhere in between. -/
def bracketTrace (tr : List Ev) : Prop :=
  ∃ mid, tr = Ev.acquire :: (mid ++ [Ev.release]) ∧ ∀ e ∈ mid, workEv e

/-- Global state of `n` processes sharing the advisory file lock: each
process's position in its own event trace, and the current lock holder
(`fcntl.flock` with `LOCK_EX` admits at most one). -/
structure LState (n : Nat) where
  pos : Fin n → Nat
  owner : Option (Fin n)

/-- All processes at the start of their traces, the lock free. -/
def lockInit (n : Nat) : LState n :=
  ⟨fun _ => 0, none⟩

/-- The next event of process `i` in state `s`. -/
def evAt {n : Nat} (procs : Fin n → List Ev) (i : Fin n) (s : LState n) : Option Ev :=
  (procs i)[s.pos i]?

/-- Interleaving semantics: one process performs its next event.
`acquire` blocks until the lock is free (`flock` with no timeout) and
takes it; work events do not touch the lock; `release` (performed only
by the holder) frees it. -/
inductive LStep {n : Nat} (procs : Fin n → List Ev) : LState n → LState n → Prop where
  | acquireStep (i : Fin n) {s : LState n}
      (hev : evAt procs i s = some Ev.acquire) (hfree : s.owner = none) :
      LStep procs s ⟨Function.update s.pos i (s.pos i + 1), some i⟩
  | workStep (i : Fin n) (e : Ev) {s : LState n}
      (hev : evAt procs i s = some e) (hna : e ≠ Ev.acquire) (hnr : e ≠ Ev.release) :
      LStep procs s ⟨Function.update s.pos i (s.pos i + 1), s.owner⟩
  | releaseStep (i : Fin n) {s : LState n}
      (hev : evAt procs i s = some Ev.release) (hown : s.owner = some i) :
      LStep procs s ⟨Function.update s.pos i (s.pos i + 1), none⟩

/-- Reachability under the interleaving semantics. -/
def Reaches {n : Nat} (procs : Fin n → List Ev) : LState n → LState n → Prop :=
  Relation.ReflTransGen (LStep procs)

/-- Process `i` is inside its lock scope: past its `acquire`, not yet
past its `release`. -/
def inCritical {n : Nat} (procs : Fin n → List Ev) (s : LState n) (i : Fin n) : Prop :=
  0 < s.pos i ∧ s.pos i < (procs i).length

/-- Fixture configuration for concrete runs: default bounds, no
configured player command, streaming enabled. -/
def cfgA : PCfg :=
  { speaker_name := "冥鳴ひまり".data
    min_chars := 80
    max_chars := 160
    player_command := []
    stream_playback := true }

/-- Fixture environment: an empty voice directory, an LLM that always
raises, `pw-play` and `paplay` installed, synthesis succeeding, and a
player whose first invocation raises (as when `pw-play` exits non-zero)
while later invocations would succeed. -/
def envA : PEnv :=
  { speakers := []
    llm := fun _ => .raises
    which := fun c => c = "pw-play".data ∨ c = "paplay".data
    synth := fun _ => .ok 0
    play := fun k => if k = 0 then some "pw-play failed".data else none
    sched := 0 }


/-- Fixture initial `BoxLogic` state: no player selected, empty cache. -/
def stA : PState :=
  { player_cmd := none, cache := [] }

/-- Concrete run for the playback-failure scenario: one-segment direct
reply, player failing on its first (and only attempted) invocation. -/
def c2run : Except (List Char) ResultD × PState × List Ev :=
  process cfgA envA stA "こんにちは".data "direct".data false (.intArg 1)

/-- Fixture task queue: the first task fails speaker resolution (the
directory is empty), the second is a dry-run that succeeds. -/
def tasksA : List WTask :=
  [⟨"hi".data, "llm".data, false, .strArg "nobody".data⟩,
   ⟨"ok".data, "direct".data, true, .intArg 3⟩]

/-- Fixture environment for the lock-leak scenario: playback fails on
its first invocation, and the scheduler lets one residual synthesize
call of the abandoned producer thread complete after the lock release. -/
def envB : PEnv :=
  { speakers := []
    llm := fun _ => .raises
    which := fun c => c = "pw-play".data
    synth := fun _ => .ok 0
    play := fun k => if k = 0 then some "pw-play failed".data else none
    sched := 1 }

/-- Concrete run for the lock-leak scenario: a two-sentence direct
reply, playback failing on the first payload, one residual synthesize
call landing after the release. -/
def c8run : Except (List Char) ResultD × PState × List Ev :=
  process cfgA envB stA "あ。い。".data "direct".data false (.intArg 1)

/-! ## Helper lemmas -/

theorem truthy_iff (o : Option (List Char)) :
    truthy o = true ↔ ∃ v, o = some v ∧ v ≠ [] := by
  cases o <;> simp [truthy]

theorem pyOr_ne_nil (o : Option (List Char)) (d : List Char) (hd : d ≠ []) :
    pyOr o d ≠ [] := by
  cases o with
  | none => simpa [pyOr] using hd
  | some s =>
    simp only [pyOr]
    split
    · exact hd
    · assumption

theorem dropWhile_length_le_self (p : Char → Bool) (l : List Char) :
    (l.dropWhile p).length ≤ l.length := by
  induction l with
  | nil => simp
  | cons c rest ih =>
    by_cases h : p c = true
    · rw [List.dropWhile_cons_of_pos h]
      exact le_trans ih (Nat.le_succ _)
    · rw [List.dropWhile_cons_of_neg (by simpa using h)]

theorem rstrip_length_le (l : List Char) : (rstrip l).length ≤ l.length := by
  calc (rstrip l).length = (l.reverse.dropWhile pySpace).length := by
        simp [rstrip]
    _ ≤ l.reverse.length := dropWhile_length_le_self _ _
    _ = l.length := List.length_reverse l

theorem truncate_text_length_le (t : List Char) (min_chars max_chars : Nat) :
    (truncate_text t min_chars max_chars).length ≤ max_chars + 1 := by
  unfold truncate_text
  split
  · split
    · calc ((t.take (max_chars + 1)).take (truncIdx (t.take (max_chars + 1)) + 1).toNat).length
          ≤ (t.take (max_chars + 1)).length := by
            rw [List.length_take]
            exact min_le_right _ _
        _ ≤ max_chars + 1 := by
            rw [List.length_take]
            exact min_le_left _ _
    · have h1 := rstrip_length_le (t.take max_chars)
      have h2 : (t.take max_chars).length ≤ max_chars := by
        rw [List.length_take]; exact min_le_left _ _
      simp only [List.length_append, List.length_cons, List.length_nil]
      omega
  · rename_i h
    omega

/-- Whenever `normalize_text` returns a string, its length is between
`min_chars` and `max_chars + 1` (not `max_chars`: the truncation window
`text[:max_chars + 1]` may keep a sentence boundary at index
`max_chars`). -/
theorem normalize_text_some_length (text : List Char) (min_chars max_chars : Nat)
    (s : List Char) (h : normalize_text text min_chars max_chars = some s) :
    min_chars ≤ s.length ∧ s.length ≤ max_chars + 1 := by
  unfold normalize_text at h
  split at h
  · exact absurd h (by simp)
  · split at h
    · exact absurd h (by simp)
    · split at h
      · exact absurd h (by simp)
      · rename_i hlen
        obtain rfl := (Option.some.inj h).symm
        refine ⟨by omega, ?_⟩
        exact truncate_text_length_le _ _ _

theorem make_reply_llm_shape (text : List Char) (min_chars max_chars : Nat)
    (llm : Nat → LLMAttempt) :
    (∃ s, normalize_text (attemptRaw llm 0) min_chars max_chars = some s ∧ s ≠ [] ∧
          make_reply text "llm".data min_chars max_chars llm = (s, 1, .llm)) ∨
    (∃ s, normalize_text (attemptRaw llm 1) min_chars max_chars = some s ∧ s ≠ [] ∧
          make_reply text "llm".data min_chars max_chars llm = (s, 2, .llm)) ∨
    make_reply text "llm".data min_chars max_chars llm =
      (pyOr (normalize_text FALLBACK_REPLY min_chars max_chars) FALLBACK_REPLY, 2, .fallback) := by
  unfold make_reply
  rw [if_neg (by decide)]
  by_cases h0 : truthy (normalize_text (attemptRaw llm 0) min_chars max_chars) = true
  · obtain ⟨v, hv, hvne⟩ := (truthy_iff _).mp h0
    left
    refine ⟨v, hv, hvne, ?_⟩
    rw [hv]
    simp [truthy, hvne]
  · by_cases h1 : truthy (normalize_text (attemptRaw llm 1) min_chars max_chars) = true
    · obtain ⟨v, hv, hvne⟩ := (truthy_iff _).mp h1
      right; left
      refine ⟨v, hv, hvne, ?_⟩
      rw [if_neg h0, hv]
      simp [truthy, hvne]
    · right; right
      rw [if_neg h0, if_neg h1]

/-- Reply-related fields of a Result that `process` returned. -/
theorem process_ok_reply_fields (cfg : PCfg) (env : PEnv) (st : PState)
    (text mode : List Char) (dry_run : Bool) (speaker : SpeakerArg)
    (r : ResultD) (st2 : PState) (tr : List Ev)
    (h : process cfg env st text mode dry_run speaker = (.ok r, st2, tr)) :
    r.reply_text = (make_reply text mode cfg.min_chars cfg.max_chars env.llm).1 ∧
    r.output_chars = (make_reply text mode cfg.min_chars cfg.max_chars env.llm).1.length ∧
    r.reply_source = (make_reply text mode cfg.min_chars cfg.max_chars env.llm).2.2 ∧
    r.mode = mode := by
  simp only [process] at h
  split at h
  · simp [Prod.ext_iff] at h
  · split at h <;>
    · simp only [Prod.ext_iff] at h
      obtain ⟨h1, -, -⟩ := h
      obtain rfl := (Except.ok.inj h1).symm
      simp [mkResult]

/-! ## C1 -/

/-- **C1, counterexample.**  With `min_chars = 1 ≤ max_chars = 2`,
`normalize_text` applied to `"a。。"` returns `"a。。"` itself, whose
length 3 exceeds `max_chars = 2`: the claimed bound
`length ≤ max_chars` fails (the sentence boundary sits at index
`max_chars` inside the `max_chars + 1` truncation window). -/
theorem c1_bounds_counterexample :
    (1 : Nat) ≤ 2 ∧
    normalize_text "a。。".data 1 2 = some "a。。".data ∧
    ¬ ("a。。".data.length ≤ 2) := by
  refine ⟨by decide, by decide, by decide⟩

/-- **C1 (amended).**  For configured bounds with
`min_chars ≤ max_chars`, whenever `normalize_text` returns a string its
length satisfies `min_chars ≤ length ≤ max_chars + 1`; consequently
every llm-mode Result's `output_chars` satisfies those bounds or the
reply equals the fixed fallback reply. -/
theorem c1_normalize_length_bounds (cfg : PCfg) (_hmm : cfg.min_chars ≤ cfg.max_chars) :
    (∀ text s, normalize_text text cfg.min_chars cfg.max_chars = some s →
        cfg.min_chars ≤ s.length ∧ s.length ≤ cfg.max_chars + 1) ∧
    (∀ env st text dry_run speaker r st2 tr,
        process cfg env st text "llm".data dry_run speaker = (.ok r, st2, tr) →
        (cfg.min_chars ≤ r.output_chars ∧ r.output_chars ≤ cfg.max_chars + 1) ∨
        r.reply_text = FALLBACK_REPLY) := by
  constructor
  · intro text s h
    exact normalize_text_some_length text _ _ s h
  · intro env st text dry_run speaker r st2 tr h
    obtain ⟨hrt, hoc, -, -⟩ := process_ok_reply_fields cfg env st text _ dry_run speaker r st2 tr h
    rcases make_reply_llm_shape text cfg.min_chars cfg.max_chars env.llm with
      ⟨s, hs, -, hmk⟩ | ⟨s, hs, -, hmk⟩ | hmk
    · left
      rw [hoc, hmk]
      exact normalize_text_some_length _ _ _ _ hs
    · left
      rw [hoc, hmk]
      exact normalize_text_some_length _ _ _ _ hs
    · rw [hmk] at hrt hoc
      rcases hnf : normalize_text FALLBACK_REPLY cfg.min_chars cfg.max_chars with - | s
      · right
        rw [hrt]
        simp [pyOr, hnf]
      · rcases hse : s with - | ⟨c, cs⟩
        · right
          rw [hrt]
          simp [pyOr, hnf, hse]
        · left
          rw [hoc]
          have hb := normalize_text_some_length _ _ _ _ hnf
          rw [hse] at hb
          simpa [pyOr, hnf, hse] using hb

/-- **C1, witness.** -/
theorem c1_normalize_length_bounds_witness :
    (1 : Nat) ≤ "a。".data.length ∧ "a。".data.length ≤ 2 + 1 :=
  (c1_normalize_length_bounds
      { speaker_name := [], min_chars := 1, max_chars := 2,
        player_command := [], stream_playback := true }
      (by decide)).1 "a。".data "a。".data (by decide)

/-! ## C7 -/

/-- **C7.**  `normalize_direct_text` returns `none` exactly when cleanup
yields empty text, and otherwise a non-empty string ending in a terminal
sentence punctuation mark, with no length-based rejection or truncation;
in particular it maps `"こんにちは"` to `"こんにちは。"`. -/
theorem c7_normalize_direct (text : List Char) :
    (normalize_direct_text text = none ↔ cleanup_text text = []) ∧
    (∀ s, normalize_direct_text text = some s →
        s ≠ [] ∧ ∃ c, s.getLast? = some c ∧
          (c = '。' ∨ c = '！' ∨ c = '？' ∨ c = '!' ∨ c = '?')) ∧
    normalize_direct_text "こんにちは".data = some "こんにちは。".data := by
  refine ⟨?_, ?_, by decide⟩
  · unfold normalize_direct_text
    split
    · rename_i h
      simp [h]
    · rename_i h
      split <;> simp [h]
  · intro s h
    unfold normalize_direct_text at h
    split at h
    · exact absurd h (by simp)
    · rename_i hne
      split at h
      · rename_i hpunct
        obtain rfl := (Option.some.inj h).symm
        refine ⟨hne, ?_⟩
        unfold endsSentencePunct5 at hpunct
        rcases hlast : (cleanup_text text).getLast? with - | c
        · rw [hlast] at hpunct
          exact absurd hpunct (by simp)
        · rw [hlast] at hpunct
          refine ⟨c, rfl, ?_⟩
          simpa using hpunct
      · obtain rfl := (Option.some.inj h).symm
        refine ⟨by simp, '。', ?_, by simp⟩
        exact List.getLast?_concat _

/-- **C7, witness.** -/
theorem c7_normalize_direct_witness :
    "こんにちは。".data ≠ [] ∧ ∃ c, "こんにちは。".data.getLast? = some c ∧
      (c = '。' ∨ c = '！' ∨ c = '？' ∨ c = '!' ∨ c = '?') :=
  (c7_normalize_direct "こんにちは".data).2.1 "こんにちは。".data (by decide)

/-! ## C3 -/

/-- **C3.**  In llm mode the reply generator issues at most 2 LLM
invocations per request and never returns an empty reply; when both
attempts fail normalization (Python truthiness: `None` or empty), it
returns the normalized fallback reply — or the raw fallback constant if
that normalization is itself falsy — with source `fallback`. -/
theorem c3_llm_attempts_and_fallback (text : List Char) (min_chars max_chars : Nat)
    (llm : Nat → LLMAttempt) :
    (make_reply text "llm".data min_chars max_chars llm).2.1 ≤ 2 ∧
    (make_reply text "llm".data min_chars max_chars llm).1 ≠ [] ∧
    (truthy (normalize_text (attemptRaw llm 0) min_chars max_chars) = false →
     truthy (normalize_text (attemptRaw llm 1) min_chars max_chars) = false →
     (make_reply text "llm".data min_chars max_chars llm).2.2 = ReplySource.fallback ∧
     (make_reply text "llm".data min_chars max_chars llm).1 =
       pyOr (normalize_text FALLBACK_REPLY min_chars max_chars) FALLBACK_REPLY) := by
  have hfb : FALLBACK_REPLY ≠ [] := by decide
  rcases make_reply_llm_shape text min_chars max_chars llm with
    ⟨s, hs, hne, hmk⟩ | ⟨s, hs, hne, hmk⟩ | hmk
  · refine ⟨by simp [hmk], by rw [hmk]; exact hne, ?_⟩
    intro h0 _
    rw [hs] at h0
    simp [truthy] at h0
    exact absurd h0 hne
  · refine ⟨by simp [hmk], by rw [hmk]; exact hne, ?_⟩
    intro _ h1
    rw [hs] at h1
    simp [truthy] at h1
    exact absurd h1 hne
  · exact ⟨by simp [hmk], by rw [hmk]; exact pyOr_ne_nil _ _ hfb,
      fun _ _ => by rw [hmk]; exact ⟨rfl, rfl⟩⟩

/-- **C3, witness.**  With the default bounds 80/160 and an LLM that
always raises, both candidates are the (54-character) fallback constant,
which fails the lower bound, so the reply is the raw fallback with
source `fallback`; 2 invocations were issued and the reply is
non-empty. -/
theorem c3_llm_attempts_and_fallback_witness :
    (make_reply "x".data "llm".data 80 160 (fun _ => .raises)).2.1 ≤ 2 ∧
    (make_reply "x".data "llm".data 80 160 (fun _ => .raises)).1 ≠ [] ∧
    ((make_reply "x".data "llm".data 80 160 (fun _ => .raises)).2.2 = ReplySource.fallback ∧
     (make_reply "x".data "llm".data 80 160 (fun _ => .raises)).1 =
       pyOr (normalize_text FALLBACK_REPLY 80 160) FALLBACK_REPLY) := by
  have h := c3_llm_attempts_and_fallback "x".data 80 160 (fun _ => .raises)
  exact ⟨h.1, h.2.1, h.2.2 (by decide) (by decide)⟩

/-! ## C6 -/

theorem cacheLookup_cons_self (cache : Cache) (t : List Char) (v : Int) :
    cacheLookup ((t, v) :: cache) t = some v := by
  simp [cacheLookup]

/-- A successful non-digit name resolution leaves the name cached with
the returned id. -/
theorem resolve_speaker_name_ok_cached (cache : Cache)
    (speakers : List (List Char × List Int)) (s : List Char) (v : Int)
    (cache' : Cache) (q : List (List Char))
    (hnd : isdigitStr (strip s) = false)
    (h : resolve_speaker_name cache speakers s = (.ok v, cache', q)) :
    cacheLookup cache' (strip s) = some v := by
  simp only [resolve_speaker_name] at h
  rw [hnd] at h
  simp only [Bool.false_eq_true, if_false] at h
  split at h
  · rename_i w hw
    simp only [Prod.mk.injEq] at h
    obtain ⟨h1, h2, -⟩ := h
    obtain rfl := Except.ok.inj h1
    rw [← h2]
    exact hw
  · split at h
    · simp only [Prod.mk.injEq] at h
      obtain ⟨h1, h2, -⟩ := h
      obtain rfl := Except.ok.inj h1
      rw [← h2]
      exact cacheLookup_cons_self _ _ _
    · simp only [Prod.mk.injEq] at h
      exact absurd h.1 (by simp)

/-- Resolution never evicts or overwrites a cached entry, and never
queries the directory for a name that is already cached. -/
theorem resolve_speaker_name_preserves (cache : Cache)
    (speakers : List (List Char × List Int)) (s t : List Char) (v : Int)
    (hc : cacheLookup cache t = some v) :
    cacheLookup (resolve_speaker_name cache speakers s).2.1 t = some v ∧
    t ∉ (resolve_speaker_name cache speakers s).2.2 := by
  simp only [resolve_speaker_name]
  split
  · exact ⟨hc, by simp⟩
  · split
    · exact ⟨hc, by simp⟩
    · rename_i hmiss
      have hne : strip s ≠ t := by
        intro he
        rw [he, hc] at hmiss
        exact absurd hmiss (by simp)
      split
      · refine ⟨?_, by simpa using fun he => hne he.symm⟩
        simp only [cacheLookup]
        rw [if_neg hne]
        exact hc
      · exact ⟨hc, by simpa using fun he => hne he.symm⟩

theorem resolve_speaker_id_preserves (speaker_name_cfg : List Char) (cache : Cache)
    (speakers : List (List Char × List Int)) (a : SpeakerArg) (t : List Char) (v : Int)
    (hc : cacheLookup cache t = some v) :
    cacheLookup (resolve_speaker_id speaker_name_cfg cache speakers a).2.1 t = some v ∧
    t ∉ (resolve_speaker_id speaker_name_cfg cache speakers a).2.2 := by
  cases a with
  | noneArg =>
    simp only [resolve_speaker_id]
    exact resolve_speaker_name_preserves _ _ _ _ _ hc
  | intArg n =>
    simp only [resolve_speaker_id]
    exact ⟨hc, by simp⟩
  | strArg s =>
    simp only [resolve_speaker_id]
    split
    · exact resolve_speaker_name_preserves _ _ _ _ _ hc
    · exact resolve_speaker_name_preserves _ _ _ _ _ hc

theorem runResolves_preserves (speaker_name_cfg : List Char)
    (speakers : List (List Char × List Int)) (args : List SpeakerArg) (cache : Cache)
    (t : List Char) (v : Int) (hc : cacheLookup cache t = some v) :
    cacheLookup (runResolves speaker_name_cfg speakers cache args).1 t = some v ∧
    t ∉ (runResolves speaker_name_cfg speakers cache args).2 := by
  induction args generalizing cache with
  | nil => exact ⟨hc, by simp [runResolves]⟩
  | cons a rest ih =>
    obtain ⟨h1, h2⟩ := resolve_speaker_id_preserves speaker_name_cfg cache speakers a t v hc
    obtain ⟨h3, h4⟩ := ih _ h1
    refine ⟨h3, ?_⟩
    simp only [runResolves, List.mem_append]
    exact fun h => h.elim h2 h4

/-- **C6.**  For a non-numeric voice name, once `resolve_speaker_id` has
succeeded for it, every subsequent resolve of the same name performs no
directory query and returns the same voice id with the cache unchanged,
and no later sequence of resolve calls (for any arguments) ever queries
the directory for that name again: at most one directory query is issued
per distinct name for the process lifetime. -/
theorem c6_speaker_cache_single_query (speaker_name_cfg : List Char)
    (speakers : List (List Char × List Int)) (cache : Cache) (name : List Char)
    (v : Int) (cache' : Cache) (q : List (List Char))
    (hnd : isdigitStr (strip name) = false) (hne : strip name ≠ [])
    (h : resolve_speaker_id speaker_name_cfg cache speakers (.strArg name) = (.ok v, cache', q)) :
    resolve_speaker_id speaker_name_cfg cache' speakers (.strArg name) = (.ok v, cache', []) ∧
    ∀ args, strip name ∉ (runResolves speaker_name_cfg speakers cache' args).2 := by
  have hsne : ¬ strip name = [] := hne
  simp only [resolve_speaker_id] at h
  rw [if_neg hsne] at h
  have hcached : cacheLookup cache' (strip name) = some v :=
    resolve_speaker_name_ok_cached cache speakers name v cache' q hnd h
  constructor
  · simp only [resolve_speaker_id]
    rw [if_neg hsne]
    simp only [resolve_speaker_name]
    rw [hnd]
    simp only [Bool.false_eq_true, if_false, hcached]
  · intro args
    exact (runResolves_preserves speaker_name_cfg speakers args cache' (strip name) v hcached).2

/-- **C6, witness.** -/
theorem c6_speaker_cache_single_query_witness :
    resolve_speaker_id [] [("himari".data, (14 : Int))] [("himari".data, [(14 : Int)])]
        (.strArg "himari".data) = (.ok 14, [("himari".data, 14)], []) ∧
    strip "himari".data ∉
      (runResolves [] [("himari".data, [(14 : Int)])] [("himari".data, (14 : Int))]
        [.strArg "himari".data]).2 := by
  have h := c6_speaker_cache_single_query [] [("himari".data, [(14 : Int)])] [] "himari".data
    14 [("himari".data, 14)] ["himari".data] (by decide) (by decide) rfl
  exact ⟨h.1, h.2 [.strArg "himari".data]⟩

/-! ## C4 -/

/-- **C4, counterexample.**  With `queue_max = 0` the underlying
`queue.Queue(maxsize=0)` is unbounded: while the queue already holds
`queue_max` (namely 0) pending requests, a submission succeeds and the
completed request is answered 200 — no capacity error and no 429. -/
theorem c4_queue_capacity_counterexample :
    put_nowait 0 ([] : List Nat) 7 = .ok [7] ∧
    (do_POST_speak [("text".data, .str "hi".data)] 0 0
        [("error".data, .null), ("reply_text".data, .str "ok".data)]).1 = 200 := by
  refine ⟨rfl, by decide⟩

/-- **C4 (amended).**  For a positive `queue_max`: every submission to
the request queue while it already holds at least `queue_max` pending
requests fails immediately with a capacity error (`queue.Full`, surfaced
by `do_POST` as HTTP 429) and never blocks the caller (`put_nowait` is a
total function); submissions below capacity are enqueued at the tail. -/
theorem c4_queue_capacity (queue_max : Nat) (hpos : 1 ≤ queue_max) :
    (∀ (q : List (List Char)) x, queue_max ≤ q.length →
        put_nowait queue_max q x = .error ()) ∧
    (∀ (q : List (List Char)) x, q.length < queue_max →
        put_nowait queue_max q x = .ok (q ++ [x])) ∧
    (∀ payload qlen res, textValid payload = true → queue_max ≤ qlen →
        (do_POST_speak payload qlen queue_max res).1 = 429) := by
  refine ⟨?_, ?_, ?_⟩
  · intro q x hq
    unfold put_nowait
    rw [if_pos ⟨hpos, hq⟩]
  · intro q x hq
    unfold put_nowait
    rw [if_neg (by omega)]
  · intro payload qlen res hvalid hq
    unfold do_POST_speak
    rw [if_neg (by simp [hvalid]), if_pos ⟨hpos, hq⟩]

/-- **C4, witness.** -/
theorem c4_queue_capacity_witness :
    put_nowait 1 ["a".data] "b".data = .error () ∧
    put_nowait 1 ([] : List (List Char)) "b".data = .ok ["b".data] ∧
    (do_POST_speak [("text".data, .str "hi".data)] 1 1
        [("error".data, .str "boom".data)]).1 = 429 := by
  have h := c4_queue_capacity 1 (by decide)
  exact ⟨h.1 ["a".data] "b".data (by decide), h.2.1 [] "b".data (by decide),
    h.2.2 [("text".data, .str "hi".data)] 1 [("error".data, .str "boom".data)]
      (by decide) (by decide)⟩

/-! ## C5 -/

/-- **C5.**  For a completed `/speak` request (valid text, room in the
queue), the handler answers 200 whenever the Result contains an `error`
entry together with a populated (non-None) `reply_text`, and answers 500
exactly when the Result contains an `error` entry and no `reply_text`. -/
theorem c5_handler_degraded_success (payload : JDict) (qlen queue_max : Nat) (res : JDict)
    (hvalid : textValid payload = true)
    (hroom : ¬ (0 < queue_max ∧ queue_max ≤ qlen)) :
    (hasKey res "error".data = true → ¬ dictGet res "reply_text".data = .null →
        (do_POST_speak payload qlen queue_max res).1 = 200) ∧
    ((do_POST_speak payload qlen queue_max res).1 = 500 ↔
        (hasKey res "error".data = true ∧ dictGet res "reply_text".data = .null)) := by
  unfold do_POST_speak
  rw [if_neg (by simp [hvalid]), if_neg hroom]
  constructor
  · intro he hr
    rw [if_neg (fun hc => hr hc.2)]
  · by_cases hc : hasKey res "error".data = true ∧ dictGet res "reply_text".data = .null
    · rw [if_pos hc]
      simp [hc]
    · rw [if_neg hc]
      simp [hc]

/-- **C5, witness.**  A worker-exception result `{"error": msg}` (no
`reply_text` key, so `get` yields None) is answered 500. -/
theorem c5_handler_degraded_success_witness :
    (do_POST_speak [("text".data, .str "hi".data)] 0 10
        [("error".data, .str "boom".data)]).1 = 500 :=
  (c5_handler_degraded_success [("text".data, .str "hi".data)] 0 10
      [("error".data, .str "boom".data)] (by decide) (by decide)).2.mpr (by decide)

/-! ## C10 -/

theorem run_with_player_played_iff (cfg : PCfg) (env : PEnv) (reply_text : List Char) :
    (run_with_player cfg env reply_text).1 = true ↔
    (run_with_player cfg env reply_text).2.1 = none := by
  simp only [run_with_player]
  split
  · simp [Option.isNone_iff_eq_none]
  · split
    · simp
    · split <;> simp

theorem run_playback_played_iff (cfg : PCfg) (env : PEnv)
    (player_cmd : Option (List (List Char))) (reply_text : List Char) :
    (run_playback cfg env player_cmd reply_text).1 = true ↔
    (run_playback cfg env player_cmd reply_text).2.1 = none := by
  cases player_cmd with
  | some cmd =>
    simp only [run_playback]
    exact run_with_player_played_iff cfg env reply_text
  | none =>
    simp only [run_playback]
    split
    · simp
    · exact run_with_player_played_iff cfg env reply_text

/-- **C10.**  Every Result returned by `process` satisfies:
`played = true` if and only if `error` is None and `dry_run` is false.
In particular a dry-run Result has `played = false` with `error = None`,
and a Result carrying an error has `played = false`. -/
theorem c10_played_iff_no_error_not_dry (cfg : PCfg) (env : PEnv) (st : PState)
    (text mode : List Char) (dry_run : Bool) (speaker : SpeakerArg)
    (r : ResultD) (st2 : PState) (tr : List Ev)
    (h : process cfg env st text mode dry_run speaker = (.ok r, st2, tr)) :
    r.played = true ↔ (r.error = none ∧ dry_run = false) := by
  simp only [process] at h
  split at h
  · simp [Prod.ext_iff] at h
  · split at h
    · rename_i hdry
      simp only [Prod.ext_iff] at h
      obtain ⟨h1, -, -⟩ := h
      obtain rfl := (Except.ok.inj h1).symm
      simp [mkResult, hdry]
    · rename_i hdry
      simp only [Prod.ext_iff] at h
      obtain ⟨h1, -, -⟩ := h
      obtain rfl := (Except.ok.inj h1).symm
      rw [Bool.not_eq_true] at hdry
      simp only [mkResult, hdry, and_true]
      exact run_playback_played_iff cfg env st.player_cmd _

/-- **C10, witness.**  A concrete dry-run Result: `played = false`,
`error = none`, `dry_run = true`. -/
theorem c10_played_iff_no_error_not_dry_witness :
    (false : Bool) = true ↔ ((none : Option (List Char)) = none ∧ (true : Bool) = false) :=
  c10_played_iff_no_error_not_dry cfgA envA stA "hi".data "direct".data true (.intArg 1)
    _ _ _ rfl

/-! ## C2 -/

/-- **C2** is violated by the code: in the claim's own scenario (no
configured player command, `pw-play` and `paplay` both installed,
playback of the single payload failing on the selected `pw-play`),
`BoxLogic.process` makes exactly one playback attempt, never re-selects
the player, and surfaces the error in the Result (`played = false`),
even though the next candidate `paplay` is available and its invocation
would succeed.  The repository's own test
`test_play_wav_retries_with_next_player_candidate` expects the retry. -/
theorem c2_no_retry_on_player_failure :
    c2run.1 = .ok { reply_text := "こんにちは。".data, played := false, speaker_id := 1,
                    reply_source := .direct, input_chars := 5, output_chars := 6,
                    mode := "direct".data, error := some "pw-play failed".data } ∧
    c2run.2.2.count Ev.playQ = 1 ∧
    envA.which "paplay".data = true ∧
    envA.play 1 = none := by
  refine ⟨rfl, by decide, by decide, rfl⟩

/-! ## C9 -/

/-- **C9.**  The single worker completes every queued task exactly once
(one completion per task, each marked done) and a failure while
processing one request never halts the loop: the head completion of a
non-empty queue records the process outcome — the error, when `process`
raised — and the remaining tasks are still processed. -/
theorem c9_worker_never_halts (cfg : PCfg) (envs : Nat → PEnv) (k : Nat) (st : PState)
    (tasks : List WTask) :
    (worker_run cfg envs k st tasks).1.length = tasks.length ∧
    (∀ c ∈ (worker_run cfg envs k st tasks).1, c.1 = true) ∧
    (∀ t rest, (worker_run cfg envs k st (t :: rest)).1.head? =
        some (true, (process cfg (envs k) st t.text t.mode t.dry_run t.speaker).1)) := by
  refine ⟨?_, ?_, fun t rest => rfl⟩
  · induction tasks generalizing k st with
    | nil => rfl
    | cons t rest ih =>
      simp only [worker_run, List.length_cons]
      rw [ih]
  · induction tasks generalizing k st with
    | nil => simp [worker_run]
    | cons t rest ih =>
      intro c hc
      simp only [worker_run, List.mem_cons] at hc
      rcases hc with rfl | hc
      · rfl
      · exact ih _ _ c hc

/-- **C9, witness.**  On the fixture queue (first task fails speaker
resolution and raises, second is a dry run) both tasks get completions
and the first completion is done with the error recorded. -/
theorem c9_worker_never_halts_witness :
    (worker_run cfgA (fun _ => envA) 0 stA tasksA).1.length = tasksA.length ∧
    ((true, (process cfgA envA stA "hi".data "llm".data false
        (.strArg "nobody".data)).1) : Bool × Except (List Char) ResultD).1 = true := by
  have h := c9_worker_never_halts cfgA (fun _ => envA) 0 stA tasksA
  exact ⟨h.1, h.2.1 _ (List.mem_cons_self _ _)⟩

/-! ## C8 -/

theorem play_segments_workEv (env : PEnv) (segs : List (List Char)) (sIdx pIdx : Nat) :
    ∀ e ∈ (play_segments env segs sIdx pIdx).2.2, workEv e := by
  induction segs generalizing sIdx pIdx with
  | nil =>
    intro e he
    simp [play_segments] at he
  | cons seg rest ih =>
    intro e he
    simp only [play_segments] at he
    rcases hs : env.synth sIdx with msg | wav
    · rw [hs] at he
      simp at he
      subst he
      exact ⟨by decide, by decide⟩
    · rw [hs] at he
      rcases hp : env.play pIdx with - | msg
      · rw [hp] at he
        simp at he
        rcases he with rfl | rfl | he
        · exact ⟨by decide, by decide⟩
        · exact ⟨by decide, by decide⟩
        · exact ih _ _ e he
      · rw [hp] at he
        simp at he
        rcases he with rfl | rfl
        · exact ⟨by decide, by decide⟩
        · exact ⟨by decide, by decide⟩

theorem run_with_player_workEv (cfg : PCfg) (env : PEnv) (reply_text : List Char) :
    ∀ e ∈ (run_with_player cfg env reply_text).2.2.2, workEv e := by
  intro e he
  simp only [run_with_player] at he
  split at he
  · exact play_segments_workEv env _ 0 0 e he
  · rcases hs : env.synth 0 with msg | wav <;> rw [hs] at he
    · simp at he
      subst he
      exact ⟨by decide, by decide⟩
    · rcases hp : env.play 0 with - | msg <;> rw [hp] at he <;> simp at he <;>
        rcases he with rfl | rfl <;> exact ⟨by decide, by decide⟩

theorem run_playback_workEv (cfg : PCfg) (env : PEnv)
    (player_cmd : Option (List (List Char))) (reply_text : List Char) :
    ∀ e ∈ (run_playback cfg env player_cmd reply_text).2.2.2.2, workEv e := by
  intro e he
  cases player_cmd with
  | some cmd =>
    simp only [run_playback] at he
    exact run_with_player_workEv cfg env reply_text e he
  | none =>
    simp only [run_playback] at he
    split at he
    · simp at he
    · exact run_with_player_workEv cfg env reply_text e he

theorem dirQ_map_workEv (qs : List (List Char)) :
    ∀ e ∈ qs.map (fun _ => Ev.dirQ), workEv e := by
  intro e he
  simp [List.mem_map] at he
  obtain ⟨-, -, rfl⟩ := he
  exact ⟨by decide, by decide⟩

theorem llmQ_replicate_workEv (k : Nat) :
    ∀ e ∈ List.replicate k Ev.llmQ, workEv e := by
  intro e he
  rw [List.eq_of_mem_replicate he]
  exact ⟨by decide, by decide⟩

/-- When the streaming consumer finished without a playback failure, the
producer thread was not abandoned: no residual post-release synthesize
calls. -/
theorem play_segments_none_residual (env : PEnv) (segs : List (List Char)) (sIdx pIdx : Nat)
    (h : (play_segments env segs sIdx pIdx).1 = none) :
    (play_segments env segs sIdx pIdx).2.1 = 0 := by
  induction segs generalizing sIdx pIdx with
  | nil => rfl
  | cons seg rest ih =>
    simp only [play_segments] at h ⊢
    rcases hs : env.synth sIdx with msg | wav
    · rfl
    · rw [hs] at h
      rcases hp : env.play pIdx with - | msg
      · rw [hp] at h
        exact ih _ _ h
      · rw [hp] at h
        simp at h

theorem run_with_player_none_residual (cfg : PCfg) (env : PEnv) (reply_text : List Char)
    (h : (run_with_player cfg env reply_text).2.1 = none) :
    (run_with_player cfg env reply_text).2.2.1 = 0 := by
  by_cases hstream : cfg.stream_playback = true
  · simp only [run_with_player, if_pos hstream] at h ⊢
    exact play_segments_none_residual env _ 0 0 h
  · simp only [run_with_player, if_neg hstream]
    rcases hs : env.synth 0 with msg | wav
    · rfl
    · rcases hp : env.play 0 with - | msg <;> rfl

theorem run_playback_none_residual (cfg : PCfg) (env : PEnv)
    (player_cmd : Option (List (List Char))) (reply_text : List Char)
    (h : (run_playback cfg env player_cmd reply_text).2.1 = none) :
    (run_playback cfg env player_cmd reply_text).2.2.2.1 = 0 := by
  cases player_cmd with
  | some cmd =>
    simp only [run_playback] at h ⊢
    exact run_with_player_none_residual cfg env reply_text h
  | none =>
    simp only [run_playback] at h ⊢
    rcases hd : detect_player_command cfg.player_command env.which with msg | cmd
    · rfl
    · rw [hd] at h
      exact run_with_player_none_residual cfg env reply_text h

/-- Every trace `BoxLogic.process` emits is a lock bracket (acquire
first, release on every exit path, only work events between) followed by
the abandoned producer's residual post-release synthesize events. -/
theorem process_trace_decomp (cfg : PCfg) (env : PEnv) (st : PState)
    (text mode : List Char) (dry_run : Bool) (speaker : SpeakerArg) :
    ∃ mid leak,
      (process cfg env st text mode dry_run speaker).2.2 =
        lockWrap mid ++ List.replicate leak Ev.synthQ ∧
      ∀ e ∈ mid, workEv e := by
  simp only [process]
  split
  · refine ⟨(resolve_speaker_id cfg.speaker_name st.cache env.speakers speaker).2.2.map
        (fun _ => Ev.dirQ), 0, ?_, dirQ_map_workEv _⟩
    rw [List.replicate_zero, List.append_nil]
  · split
    · refine ⟨(resolve_speaker_id cfg.speaker_name st.cache env.speakers speaker).2.2.map
          (fun _ => Ev.dirQ) ++
          List.replicate (make_reply text mode cfg.min_chars cfg.max_chars env.llm).2.1
            Ev.llmQ, 0, ?_, ?_⟩
      · rw [List.replicate_zero, List.append_nil]
      intro e he
      rcases List.mem_append.mp he with hm | hm
      · exact dirQ_map_workEv _ e hm
      · exact llmQ_replicate_workEv _ e hm
    · refine ⟨_, _, rfl, ?_⟩
      intro e he
      rcases List.mem_append.mp he with hm | hm
      · rcases List.mem_append.mp hm with hm2 | hm2
        · exact dirQ_map_workEv _ e hm2
        · exact llmQ_replicate_workEv _ e hm2
      · exact run_playback_workEv cfg env st.player_cmd _ e hm

/-- A run on which speaker resolution raised emits a fully bracketed
trace: the lock is still released, and no producer thread ever started. -/
theorem process_error_trace_bracketed (cfg : PCfg) (env : PEnv) (st : PState)
    (text mode : List Char) (dry_run : Bool) (speaker : SpeakerArg)
    (msg : List Char) (st2 : PState) (tr : List Ev)
    (h : process cfg env st text mode dry_run speaker = (.error msg, st2, tr)) :
    bracketTrace tr := by
  simp only [process] at h
  split at h
  · simp only [Prod.ext_iff] at h
    obtain ⟨-, -, h3⟩ := h
    subst h3
    exact ⟨_, rfl, dirQ_map_workEv _⟩
  · split at h <;> simp [Prod.ext_iff] at h

/-- A run whose Result carries no error emits a fully bracketed trace:
the pipeline was never abandoned, so there are no residual events. -/
theorem process_no_error_trace_bracketed (cfg : PCfg) (env : PEnv) (st : PState)
    (text mode : List Char) (dry_run : Bool) (speaker : SpeakerArg)
    (r : ResultD) (st2 : PState) (tr : List Ev)
    (h : process cfg env st text mode dry_run speaker = (.ok r, st2, tr))
    (herr : r.error = none) :
    bracketTrace tr := by
  simp only [process] at h
  split at h
  · simp [Prod.ext_iff] at h
  · split at h
    · simp only [Prod.ext_iff] at h
      obtain ⟨-, -, h3⟩ := h
      subst h3
      refine ⟨_, rfl, ?_⟩
      intro e he
      rcases List.mem_append.mp he with hm | hm
      · exact dirQ_map_workEv _ e hm
      · exact llmQ_replicate_workEv _ e hm
    · simp only [Prod.ext_iff] at h
      obtain ⟨h1, -, h3⟩ := h
      obtain rfl := (Except.ok.inj h1).symm
      simp only [mkResult] at herr
      have hres := run_playback_none_residual cfg env st.player_cmd _ herr
      subst h3
      rw [hres]
      rw [List.replicate_zero, List.append_nil]
      refine ⟨_, rfl, ?_⟩
      intro e he
      rcases List.mem_append.mp he with hm | hm
      · rcases List.mem_append.mp hm with hm2 | hm2
        · exact dirQ_map_workEv _ e hm2
        · exact llmQ_replicate_workEv _ e hm2
      · exact run_playback_workEv cfg env st.player_cmd _ e hm

/-- A lock-bracketed trace ends in the release. -/
theorem bracket_getLast {tr : List Ev} (h : bracketTrace tr) :
    tr.getLast? = some Ev.release := by
  obtain ⟨mid, rfl, -⟩ := h
  rw [show Ev.acquire :: (mid ++ [Ev.release]) = (Ev.acquire :: mid) ++ [Ev.release] from rfl]
  exact List.getLast?_concat _

/-- Classification of positions in a lock-bracketed trace. -/
theorem bracket_index {tr : List Ev} (h : bracketTrace tr) {p : Nat} {e : Ev}
    (hp : tr[p]? = some e) :
    (p = 0 ∧ e = Ev.acquire) ∨
    (0 < p ∧ p + 1 < tr.length ∧ workEv e) ∨
    (p + 1 = tr.length ∧ e = Ev.release) := by
  obtain ⟨mid, rfl, hmid⟩ := h
  match p with
  | 0 =>
    rw [List.getElem?_cons_zero] at hp
    exact Or.inl ⟨rfl, (Option.some.inj hp).symm⟩
  | q + 1 =>
    rw [List.getElem?_cons_succ, List.getElem?_append] at hp
    split at hp
    · rename_i hq
      refine Or.inr (Or.inl ⟨Nat.succ_pos _, ?_, hmid e (List.getElem?_mem hp)⟩)
      simp only [List.length_cons, List.length_append, List.length_nil]
      omega
    · rename_i hq
      have hlt : q - mid.length < 1 := by
        have := (List.getElem?_eq_some.mp hp).1
        simpa using this
      have hq0 : q = mid.length := by omega
      subst hq0
      rw [Nat.sub_self, List.getElem?_cons_zero] at hp
      refine Or.inr (Or.inr ⟨?_, (Option.some.inj hp).symm⟩)
      simp only [List.length_cons, List.length_append, List.length_nil]

theorem bracket_length {tr : List Ev} (h : bracketTrace tr) : 2 ≤ tr.length := by
  obtain ⟨mid, rfl, -⟩ := h
  have hlen : (Ev.acquire :: (mid ++ [Ev.release])).length = mid.length + 2 := by
    simp
  omega

/-- Invariant of the interleaved system: a process is inside its lock
scope exactly when it holds the lock. -/
theorem lock_invariant {n : Nat} {procs : Fin n → List Ev}
    (hb : ∀ i, bracketTrace (procs i)) {s : LState n}
    (h : Reaches procs (lockInit n) s) :
    ∀ i, inCritical procs s i ↔ s.owner = some i := by
  induction h with
  | refl =>
    intro i
    simp [inCritical, lockInit]
  | tail hab hbc ih =>
    rename_i b c
    cases hbc with
    | acquireStep i hev hfree =>
      have hp0 : b.pos i = 0 := by
        rcases bracket_index (hb i) hev with ⟨h1, -⟩ | ⟨-, -, hna, -⟩ | ⟨-, h1⟩
        · exact h1
        · exact absurd rfl hna
        · exact absurd h1 (by decide)
      have hlen := bracket_length (hb i)
      intro j
      by_cases hj : j = i
      · subst hj
        simp only [inCritical, Function.update_same, hp0]
        exact iff_of_true ⟨Nat.zero_lt_one, by omega⟩ (by trivial)
      · have hpos : Function.update b.pos i (b.pos i + 1) j = b.pos j :=
          Function.update_noteq hj _ _
        simp only [inCritical, hpos]
        constructor
        · intro hcrit
          have hcb := (ih j).mp hcrit
          rw [hfree] at hcb
          exact absurd hcb (by simp)
        · intro hsome
          exact absurd (Option.some.inj hsome) (fun he => hj he.symm)
    | workStep i e hev hna hnr =>
      have hbound : 0 < b.pos i ∧ b.pos i + 1 < (procs i).length := by
        rcases bracket_index (hb i) hev with ⟨-, h1⟩ | ⟨h1, h2, -⟩ | ⟨-, h1⟩
        · exact absurd h1 hna
        · exact ⟨h1, h2⟩
        · exact absurd h1 hnr
      have hown : b.owner = some i := (ih i).mp ⟨hbound.1, by omega⟩
      intro j
      by_cases hj : j = i
      · subst hj
        simp only [inCritical, Function.update_same]
        constructor
        · intro _
          exact hown
        · intro _
          exact ⟨by omega, by omega⟩
      · have hpos : Function.update b.pos i (b.pos i + 1) j = b.pos j :=
          Function.update_noteq hj _ _
        simp only [inCritical, hpos]
        exact ih j
    | releaseStep i hev hown =>
      have hend : b.pos i + 1 = (procs i).length := by
        rcases bracket_index (hb i) hev with ⟨-, h1⟩ | ⟨-, -, -, hnr⟩ | ⟨h1, -⟩
        · exact absurd h1 (by decide)
        · exact absurd rfl hnr
        · exact h1
      intro j
      by_cases hj : j = i
      · subst hj
        simp only [inCritical, Function.update_same]
        constructor
        · intro hcrit
          exact absurd hcrit.2 (by omega)
        · intro hsome
          exact absurd hsome (by simp)
      · have hpos : Function.update b.pos i (b.pos i + 1) j = b.pos j :=
          Function.update_noteq hj _ _
        simp only [inCritical, hpos]
        constructor
        · intro hcrit
          have h2 := (ih j).mp hcrit
          rw [hown] at h2
          exact absurd (Option.some.inj h2) (fun he => hj he.symm)
        · intro hsome
          exact absurd hsome (by simp)

/-- **C8, counterexample.**  With a two-sentence direct reply, playback
failing on the first payload, and a schedule under which the abandoned
producer thread's residual synthesize call completes after the lock
release (the `except` path skips `worker.join`, and the daemon thread is
never joined), the emitted trace carries a synthesis event after
`release`: the trace is not lock-bracketed, so the lock is not held for
the request's entire processing and two requests' processing can
overlap. -/
theorem c8_lock_leak_counterexample :
    c8run.2.2 = [Ev.acquire, Ev.synthQ, Ev.playQ, Ev.release, Ev.synthQ] ∧
    ¬ bracketTrace c8run.2.2 := by
  refine ⟨by decide, ?_⟩
  intro hb
  have hlast := bracket_getLast hb
  have hc : c8run.2.2.getLast? = some Ev.synthQ := by decide
  rw [hc] at hlast
  exact absurd (Option.some.inj hlast) (by decide)

/-- **C8 (amended).**  The cross-process lock is acquired before a
request's processing and released on every exit path — success, Result
with error, or a raise inside the scope.  Reply generation, speaker
resolution, playback, and the synthesis the consumer observes happen
while the lock is held, and on every run whose Result carries no error
(and on every run that raised) the trace is fully lock-bracketed; so at
most one request's lock-scoped processing runs at any instant among
processes sharing the lock.  The exception the code forces: after a
playback failure the `except` path skips `worker.join`, and the
abandoned daemon producer may complete residual synthesize calls after
the release — every trace decomposes as a lock bracket followed by
residual `synthQ` events only, and those residual calls are outside the
mutual-exclusion guarantee. -/
theorem c8_lock_bracketing_amended :
    (∀ cfg env st text mode dry_run speaker, ∃ mid leak,
        (process cfg env st text mode dry_run speaker).2.2 =
          lockWrap mid ++ List.replicate leak Ev.synthQ ∧
        ∀ e ∈ mid, workEv e) ∧
    (∀ cfg env st text mode dry_run speaker r st2 tr,
        process cfg env st text mode dry_run speaker = (.ok r, st2, tr) →
        r.error = none → bracketTrace tr) ∧
    (∀ cfg env st text mode dry_run speaker msg st2 tr,
        process cfg env st text mode dry_run speaker = (.error msg, st2, tr) →
        bracketTrace tr) ∧
    (∀ (n : Nat) (procs : Fin n → List Ev), (∀ i, bracketTrace (procs i)) →
        ∀ s, Reaches procs (lockInit n) s →
        ∀ i j, inCritical procs s i → inCritical procs s j → i = j) := by
  refine ⟨process_trace_decomp, process_no_error_trace_bracketed,
    process_error_trace_bracketed, ?_⟩
  intro n procs hb s hs i j hi hj
  have h1 := (lock_invariant hb hs i).mp hi
  have h2 := (lock_invariant hb hs j).mp hj
  rw [h1] at h2
  exact Option.some.inj h2

/-- **C8, witness.**  The concrete error-free dry-run trace is fully
lock-bracketed, and in a one-process system that has performed its
`acquire`, the process in the critical section is unique. -/
theorem c8_lock_bracketing_amended_witness :
    bracketTrace (process cfgA envA stA "hi".data "direct".data true (.intArg 1)).2.2 ∧
    (0 : Fin 1) = 0 := by
  refine ⟨c8_lock_bracketing_amended.2.1 cfgA envA stA "hi".data "direct".data true
      (.intArg 1) _ _ _ rfl rfl, ?_⟩
  have hb : ∀ i : Fin 1, bracketTrace ((fun _ : Fin 1 => [Ev.acquire, Ev.release]) i) :=
    fun _ => ⟨[], rfl, by simp⟩
  have hstep : LStep (fun _ : Fin 1 => [Ev.acquire, Ev.release]) (lockInit 1)
      ⟨Function.update (lockInit 1).pos 0 ((lockInit 1).pos 0 + 1), some 0⟩ :=
    LStep.acquireStep 0 rfl rfl
  refine c8_lock_bracketing_amended.2.2.2 1
    (fun _ => [Ev.acquire, Ev.release]) hb _
    (Relation.ReflTransGen.single hstep) 0 0 ?_ ?_ <;>
    exact ⟨by simp [lockInit, Function.update_same], by simp [lockInit, Function.update_same]⟩

end VVBox
